import Mathlib

/-!
Verification development for the Basket Normalization Engine of the Archer
repository.  The Python parsing scripts are shallowly embedded as executable
Lean functions over lists of characters and rational numbers:

* character and string primitives model the ASCII behaviour of Python
  str.strip, str.lower, str.upper and substring tests (the inputs that occur
  in the spreadsheets are ASCII);
* prices are modelled as rationals: the decimal literals captured by the
  regular expressions are parsed exactly, which preserves equality and order
  of the corresponding Python floats on the literals the code extracts;
* the regular expressions used by the source are hand-compiled to
  character-list matchers with the leftmost-match and greedy/lazy behaviour
  of the Python re module, documented at each definition.
-/

/-- Characters stripped by Python str.strip (ASCII whitespace). -/
def isSpaceChar (c : Char) : Bool :=
  c = ' ' || c = '\t' || c = '\n' || c = '\r' || c.toNat = 11 || c.toNat = 12

def isDigitChar (c : Char) : Bool :=
  48 ≤ c.toNat && c.toNat ≤ 57

/-- ASCII letter, the class matched by [A-Z] under re.IGNORECASE. -/
def isAsciiAlpha (c : Char) : Bool :=
  (65 ≤ c.toNat && c.toNat ≤ 90) || (97 ≤ c.toNat && c.toNat ≤ 122)

/-- ASCII lowering, modelling Python str.lower on the ASCII inputs used here. -/
def lowerChar (c : Char) : Char :=
  if 65 ≤ c.toNat && c.toNat ≤ 90 then Char.ofNat (c.toNat + 32) else c

/-- ASCII uppercasing, modelling Python str.upper on the ASCII inputs used here. -/
def upperChar (c : Char) : Char :=
  if 97 ≤ c.toNat && c.toNat ≤ 122 then Char.ofNat (c.toNat - 32) else c

def lowerStr (s : String) : String := ⟨s.data.map lowerChar⟩

def trimChars (cs : List Char) : List Char :=
  ((cs.dropWhile isSpaceChar).reverse.dropWhile isSpaceChar).reverse

/-- Python str.strip. -/
def trimStr (s : String) : String := ⟨trimChars s.data⟩

def isPrefixB : List Char → List Char → Bool
  | [], _ => true
  | _ :: _, [] => false
  | a :: as, b :: bs => a == b && isPrefixB as bs

def isSubB : List Char → List Char → Bool
  | n, [] => n.isEmpty
  | n, h :: t => isPrefixB n (h :: t) || isSubB n t

/-- Python substring test: needle in hay. -/
def strContains (hay needle : String) : Bool := isSubB needle.data hay.data

def natOfDigits (cs : List Char) : Nat :=
  cs.foldl (fun n c => n * 10 + (c.toNat - 48)) 0

/-- Mantissa and fraction length of a decimal literal of the shape
digits, optional dot, digits.  none exactly when the literal holds no digit,
which in Python raises ValueError. -/
def decParts (cs : List Char) : Option (Nat × Nat) :=
  let ipart := cs.takeWhile isDigitChar
  let rest := cs.dropWhile isDigitChar
  match rest with
  | [] => if ipart.isEmpty then none else some (natOfDigits ipart, 0)
  | '.' :: frac =>
    let fpart := frac.takeWhile isDigitChar
    let rest2 := frac.dropWhile isDigitChar
    if rest2.isEmpty then
      if ipart.isEmpty && fpart.isEmpty then none
      else some (natOfDigits ipart * 10 ^ fpart.length + natOfDigits fpart, fpart.length)
    else none
  | _ => none

/-- Python float() on the decimal literals captured by the price regexes.
The value is built with mkRat, which is exact on these literals. -/
def parseFloatQ (cs : List Char) : Option ℚ :=
  (decParts cs).map (fun p => mkRat p.1 (10 ^ p.2))

def isDigitOrComma (c : Char) : Bool := isDigitChar c || c = ','

/-- The group captured by the token sub-pattern of the price regexes
(a run of digits and commas, an optional dot followed by digits), read at a
position whose head is a digit or comma. -/
def numTok (cs : List Char) : List Char :=
  let t1 := cs.takeWhile isDigitOrComma
  match cs.dropWhile isDigitOrComma with
  | '.' :: r2 => t1 ++ '.' :: r2.takeWhile isDigitChar
  | _ => t1

/-- Leftmost match of the first price pattern.  The optional dollar sign only
extends a match to the left and never changes the captured group, so the group
is the token read at the first digit-or-comma position. -/
def pat1Group : List Char → Option (List Char)
  | [] => none
  | c :: t => if isDigitOrComma c then some (numTok (c :: t)) else pat1Group t

/-- Anchored attempt of token-then-spaces-then-literal (the USD/EUR suffix
patterns) at one position whose head is a digit or comma.  The token part is
greedy; shrinking it only frees digits or commas, which the following
optional-dot/space/letter parts can never consume, so only the greedy split
(with the optional fractional part) can succeed. -/
def tokLitAt (lit cs : List Char) : Option (List Char) :=
  let t1 := cs.takeWhile isDigitOrComma
  match cs.dropWhile isDigitOrComma with
  | '.' :: r2 =>
    let d2 := r2.takeWhile isDigitChar
    let r3 := r2.dropWhile isDigitChar
    if isPrefixB lit (r3.dropWhile isSpaceChar) then some (t1 ++ '.' :: d2) else none
  | r =>
    if isPrefixB lit (r.dropWhile isSpaceChar) then some t1 else none

/-- Leftmost match of a token-then-literal pattern over the whole input. -/
def tokLitGroup (lit : List Char) : List Char → Option (List Char)
  | [] => none
  | c :: t =>
    if isDigitOrComma c then
      match tokLitAt lit (c :: t) with
      | some g => some g
      | none => tokLitGroup lit t
    else tokLitGroup lit t

/-- Leftmost match of a literal-then-spaces-then-token pattern (the USD/EUR
prefix patterns).  An occurrence of the literal matches only when a digit or
comma follows the spaces; otherwise the scan moves on. -/
def litTokGroup (lit : List Char) : List Char → Option (List Char)
  | [] => none
  | c :: t =>
    if isPrefixB lit (c :: t) then
      let r := (List.drop lit.length (c :: t)).dropWhile isSpaceChar
      match r with
      | c2 :: _ => if isDigitOrComma c2 then some (numTok r) else litTokGroup lit t
      | [] => litTokGroup lit t
    else litTokGroup lit t

def stripCommas (cs : List Char) : List Char := cs.filter (fun c => c ≠ ',')

/-- One iteration of the pattern loop of DirectBasketAnalyzer.extract_price:
on a match, parse the captured group with commas removed and return the value
only when it is positive; on a parse failure or a non-positive value the loop
moves on to the next pattern. -/
def attemptPrice (g : Option (List Char)) : Option ℚ :=
  match g with
  | none => none
  | some tok =>
    match parseFloatQ (stripCommas tok) with
    | none => none
    | some v => if 0 < v then some v else none

def firstPositivePrice : List (Option (List Char)) → Option ℚ
  | [] => none
  | g :: gs =>
    match attemptPrice g with
    | some v => some v
    | none => firstPositivePrice gs

def usdLit : List Char := ['u', 's', 'd']

def eurLit : List Char := ['e', 'u', 'r']

/-- The five price patterns of DirectBasketAnalyzer, tried in source order on
the lowered input (re.IGNORECASE makes matching on the lowered string
equivalent, and the captured groups consist of digits, commas and dots, which
lowering leaves unchanged). -/
def tryPricePatterns (cs : List Char) : Option ℚ :=
  firstPositivePrice
    [pat1Group cs, tokLitGroup usdLit cs, tokLitGroup eurLit cs,
     litTokGroup usdLit cs, litTokGroup eurLit cs]

def price_sentinels : List String :=
  ["n/a", "tbd", "contact", "varies", "unknown", ""]

/-- DirectBasketAnalyzer.extract_price.  The initial falsy-or-NaN guard of the
source is subsumed by the empty-string sentinel. -/
def extract_price (s : String) : Option ℚ :=
  let stripped := trimStr s
  if price_sentinels.contains (lowerStr stripped) then none
  else tryPricePatterns (lowerStr stripped).data

/-- The part-number pattern of the server rule, caret letters 2 to 3, digits
1 to 2, an optional letter, end of string, under re.IGNORECASE.  Because the
letter and digit classes are disjoint, the regex matches exactly the strings
whose maximal-run decomposition is letters, digits, letters with those run
lengths. -/
def server_part_pattern (pn : String) : Bool :=
  let cs := pn.data
  let l1 := cs.takeWhile isAsciiAlpha
  let r1 := cs.dropWhile isAsciiAlpha
  let d := r1.takeWhile isDigitChar
  let r2 := r1.dropWhile isDigitChar
  let l2 := r2.takeWhile isAsciiAlpha
  let r3 := r2.dropWhile isAsciiAlpha
  (2 ≤ l1.length && l1.length ≤ 3) && (1 ≤ d.length && d.length ≤ 2) &&
    l2.length ≤ 1 && r3.isEmpty

structure ClassRule where
  ctype : String
  keywords : List String
  partPatterns : List (String → Bool)
  category : String

/-- The ordered rule table of DirectBasketAnalyzer.component_classification
(dict iteration in insertion order). -/
def component_classification : List ClassRule :=
  [⟨"server", ["thinksystem", "server", "chassis", "1u", "2u", "4u"],
      [server_part_pattern], "Server Hardware"⟩,
   ⟨"processor", ["xeon", "processor", "cpu", "core", "ghz"], [], "CPU"⟩,
   ⟨"memory", ["truddram4", "memory", "dimm", "dram", "gb ram"], [], "Memory"⟩,
   ⟨"storage", ["ssd", "hdd", "drive", "storage", "tb", "gb disk"], [], "Storage"⟩,
   ⟨"network", ["ethernet", "network", "nic", "10gbe", "25gbe", "adapter"], [], "Network"⟩,
   ⟨"power", ["power supply", "psu", "watt", "power"], [], "Power"⟩,
   ⟨"raid", ["raid", "controller", "storage controller"], [], "RAID Controller"⟩,
   ⟨"service", ["warranty", "service", "support", "maintenance"], [], "Service"⟩]

/-- One rule of classify_component: a keyword hit in the lowered description,
or, when a part number is present and truthy, a part-number pattern hit.
Both branches of the source return the same pair, so they combine into an or. -/
def rule_matches (rule : ClassRule) (descLower : String) (part : Option String) : Bool :=
  rule.keywords.any (fun kw => strContains descLower kw) ||
    (match part with
     | some pn => if pn = "" then false else rule.partPatterns.any (fun pat => pat pn)
     | none => false)

def classify_component_go : List ClassRule → String → Option String → String × String
  | [], _, _ => ("component", "Hardware")
  | rule :: rest, dl, part =>
    if rule_matches rule dl part then (rule.ctype, rule.category)
    else classify_component_go rest dl part

/-- DirectBasketAnalyzer.classify_component: first matching rule wins, the
fallback is the generic component/Hardware pair. -/
def classify_component (description : String) (part_number : Option String) : String × String :=
  classify_component_go component_classification (lowerStr description) part_number

inductive SpecVal where
  | nat (n : Nat)
  | num (q : ℚ)
  | str (s : String)
deriving DecidableEq

/-- Anchored attempt of the frequency sub-pattern digits, optional dot and
digits, spaces, literal ghz, at one position whose head is a digit.  As for
the price token, only the greedy split can succeed. -/
def ghzAt (cs : List Char) : Option (List Char) :=
  let n1 := cs.takeWhile isDigitChar
  match cs.dropWhile isDigitChar with
  | '.' :: r2 =>
    let n2 := r2.takeWhile isDigitChar
    let r3 := r2.dropWhile isDigitChar
    if isPrefixB ['g', 'h', 'z'] (r3.dropWhile isSpaceChar) then some (n1 ++ '.' :: n2) else none
  | r =>
    if isPrefixB ['g', 'h', 'z'] (r.dropWhile isSpaceChar) then some n1 else none

/-- Lazy scan for the earliest frequency match, as demanded by the non-greedy
gap of the cpu pattern. -/
def ghzSearch : List Char → Option (List Char)
  | [] => none
  | c :: t =>
    if isDigitChar c then
      match ghzAt (c :: t) with
      | some g => some g
      | none => ghzSearch t
    else ghzSearch t

/-- Leftmost match of the cpu pattern digits, spaces, literal core, lazy gap,
frequency, spaces, literal ghz; returns the two captured groups. -/
def cpuMatch : List Char → Option (List Char × List Char)
  | [] => none
  | c :: t =>
    if isDigitChar c then
      let d1 := (c :: t).takeWhile isDigitChar
      let r := ((c :: t).dropWhile isDigitChar).dropWhile isSpaceChar
      if isPrefixB ['c', 'o', 'r', 'e'] r then
        match ghzSearch (List.drop 4 r) with
        | some g2 => some (d1, g2)
        | none => cpuMatch t
      else cpuMatch t
    else cpuMatch t

/-- Lazy scan for the earliest literal ddr followed by one digit; returns the
captured digit. -/
def ddrSearch : List Char → Option Char
  | [] => none
  | c :: t =>
    if isPrefixB ['d', 'd', 'r'] (c :: t) then
      match List.drop 3 (c :: t) with
      | d :: _ => if isDigitChar d then some d else ddrSearch t
      | [] => ddrSearch t
    else ddrSearch t

/-- Leftmost match of the memory pattern digits, spaces, literal gb, lazy gap,
literal ddr, digit. -/
def memMatch : List Char → Option (List Char × Char)
  | [] => none
  | c :: t =>
    if isDigitChar c then
      let d1 := (c :: t).takeWhile isDigitChar
      let r := ((c :: t).dropWhile isDigitChar).dropWhile isSpaceChar
      if isPrefixB ['g', 'b'] r then
        match ddrSearch (List.drop 2 r) with
        | some d => some (d1, d)
        | none => memMatch t
      else memMatch t
    else memMatch t

/-- Lazy scan for the earliest literal ssd or hdd (alternation tried in that
order at each position; the alternatives are disjoint). -/
def mediumSearch : List Char → Option (List Char)
  | [] => none
  | c :: t =>
    if isPrefixB ['s', 's', 'd'] (c :: t) then some ['s', 's', 'd']
    else if isPrefixB ['h', 'd', 'd'] (c :: t) then some ['h', 'd', 'd']
    else mediumSearch t

/-- The number group of the storage pattern: digits, optional dot and digits
(no commas here), read at a digit-headed position. -/
def numTokNoComma (cs : List Char) : List Char :=
  let n1 := cs.takeWhile isDigitChar
  match cs.dropWhile isDigitChar with
  | '.' :: r2 => n1 ++ '.' :: r2.takeWhile isDigitChar
  | _ => n1

/-- Leftmost match of the storage pattern number, spaces, tb or gb, lazy gap,
ssd or hdd; returns the three captured groups. -/
def storMatch : List Char → Option (List Char × List Char × List Char)
  | [] => none
  | c :: t =>
    if isDigitChar c then
      let n := numTokNoComma (c :: t)
      let r := (List.drop n.length (c :: t)).dropWhile isSpaceChar
      let unit : Option (List Char) :=
        if isPrefixB ['t', 'b'] r then some ['t', 'b']
        else if isPrefixB ['g', 'b'] r then some ['g', 'b']
        else none
      match unit with
      | some u =>
        match mediumSearch (List.drop 2 r) with
        | some m => some (n, u, m)
        | none => storMatch t
      | none => storMatch t
    else storMatch t

/-- Leftmost match of the form-factor pattern digits, literal u, spaces,
rack or server; returns the digit group. -/
def ruMatch : List Char → Option (List Char)
  | [] => none
  | c :: t =>
    if isDigitChar c then
      let d := (c :: t).takeWhile isDigitChar
      match List.drop d.length (c :: t) with
      | 'u' :: r =>
        let r2 := r.dropWhile isSpaceChar
        if isPrefixB ['r', 'a', 'c', 'k'] r2 || isPrefixB ['s', 'e', 'r', 'v', 'e', 'r'] r2 then
          some d
        else ruMatch t
      | _ => ruMatch t
    else ruMatch t

/-- Value of a captured decimal group (always holds a digit), as a rational
scaled by an extra integer factor (1, or 1024 for terabytes). -/
def qOfTokScaled (tok : List Char) (mult : Nat) : ℚ :=
  match decParts tok with
  | some p => mkRat (p.1 * mult) (10 ^ p.2)
  | none => 0

def upperChars (cs : List Char) : String := ⟨cs.map upperChar⟩

/-- DirectBasketAnalyzer.extract_specifications: the four capture patterns
tried on the lowered description, each contributing its attributes in the
insertion order of the source dict. -/
def extract_specifications (description : String) : List (String × SpecVal) :=
  let dl := (lowerStr description).data
  (match cpuMatch dl with
   | some (c, f) => [("cores", SpecVal.nat (natOfDigits c)),
                     ("frequency_ghz", SpecVal.num (qOfTokScaled f 1))]
   | none => []) ++
  (match memMatch dl with
   | some (g, d) => [("capacity_gb", SpecVal.nat (natOfDigits g)),
                     ("memory_type", SpecVal.str ("DDR" ++ String.mk [d]))]
   | none => []) ++
  (match storMatch dl with
   | some (n, u, m) =>
     let capGb := if u = ['t', 'b'] then qOfTokScaled n 1024 else qOfTokScaled n 1
     [("storage_capacity_gb", SpecVal.num capGb),
      ("storage_type", SpecVal.str (upperChars m))]
   | none => []) ++
  (match ruMatch dl with
   | some d => [("rack_units", SpecVal.nat (natOfDigits d)),
                ("form_factor", SpecVal.str (String.mk d ++ "U Rack"))]
   | none => [])

/-- The component-type chain of the generated test script, in source order. -/
def test_component_type (descLower : String) : String :=
  if strContains descLower "chassis" then "🏗️ Chassis"
  else if strContains descLower "xeon" || strContains descLower "processor" then "🖥️  CPU"
  else if strContains descLower "dimm" || strContains descLower "ddr5" then "💾 Memory"
  else if strContains descLower "ssd" || strContains descLower "nvme" then "💿 Storage"
  else if strContains descLower "ethernet" || strContains descLower "gbe" then "🌐 Network"
  else "Unknown"

/-- Anchored attempt of the network speed pattern digits, optional slash,
optional digits, literal gbe, at one digit-headed position.  When the slash
branch fails the slash-free branch would have to read gbe at a slash, so the
attempt fails. -/
def gbeAt (cs : List Char) : Option (List Char) :=
  let d1 := cs.takeWhile isDigitChar
  match cs.dropWhile isDigitChar with
  | '/' :: r2 =>
    let d2 := r2.takeWhile isDigitChar
    let r3 := r2.dropWhile isDigitChar
    if isPrefixB ['g', 'b', 'e'] r3 then some (d1 ++ '/' :: (d2 ++ ['g', 'b', 'e'])) else none
  | r =>
    if isPrefixB ['g', 'b', 'e'] r then some (d1 ++ ['g', 'b', 'e']) else none

/-- Leftmost match of the network speed pattern; the whole match is captured
(group 0 of the source). -/
def gbeSearch : List Char → Option (List Char)
  | [] => none
  | c :: t =>
    if isDigitChar c then
      match gbeAt (c :: t) with
      | some g => some g
      | none => gbeSearch t
    else gbeSearch t

/-- The network extraction of the generated test script: the uppercased whole
match of the speed pattern, or the empty info string. -/
def test_network_info (descLower : String) : String :=
  match gbeSearch descLower.data with
  | some m => "Speed: " ++ upperChars m
  | none => ""

/-- One data row of the Lenovo Server Lots sheet, restricted to the columns
the parser reads.  part and desc model str(cell) of the part-number and
description columns; qty models str(cell) of the quantity column with the
empty string for a falsy cell; usd and eur model the safe-float conversion
of the price cells, none when the cell is empty or not numeric. -/
structure SrcRow where
  part : String
  desc : String
  qty : String
  usd : Option ℚ
  eur : Option ℚ
deriving DecidableEq

/-- Python truthiness on an optional float: None and 0.0 are falsy.  Models
the expressions of the form: str(price) if price else absent. -/
def truthyQ (v : Option ℚ) : Option ℚ :=
  match v with
  | some q => if q = 0 then none else some q
  | none => none

def has_price (usd : Option ℚ) : Bool :=
  match usd with
  | some v => decide (0 < v)
  | none => false

def server_indicators : List String :=
  ["smi1", "smi2", "sma1", "sma2", "mei1", "mei2", "mea1", "mea2",
   "hvi1", "hvi2", "hva1", "hva2", "vei1", "vei2", "vea1", "vea2",
   "voi1", "voi2", "voa1", "voa2", "dhc1", "dhc2"]

def server_patterns : List String :=
  ["server", "- intel ", "- amd", "rack server", "lenovo", "thinksystem", "thinkagile"]

/-- The lot and server signal of CorrectedLenovoParser._is_main_server_entry:
an indicator code or a server pattern occurs in the lowered description. -/
def has_server_signal (desc : String) : Bool :=
  let dl := lowerStr desc
  server_indicators.any (fun kw => strContains dl kw) ||
    server_patterns.any (fun kw => strContains dl kw)

/-- CorrectedLenovoParser._is_main_server_entry: a non-empty description, a
positive safe-float price in the USD column, and a server signal. -/
def is_main_server_entry (_part_number desc : String) (usd : Option ℚ) : Bool :=
  if desc = "" then false
  else has_price usd && has_server_signal desc

/-- CorrectedLenovoParser._classify_component_type: ordered keyword chains
with the fallback other. -/
def classify_component_type (description : String) : String :=
  if description = "" then "other"
  else
    let dl := lowerStr description
    if ["processor", "cpu", "intel", "amd", "xeon", "epyc"].any (fun kw => strContains dl kw) then
      "processor"
    else if ["memory", "ram", "gb", "dimm", "truddr"].any (fun kw => strContains dl kw) then
      "memory"
    else if ["storage", "disk", "ssd", "hdd", "drive", "raid", "nvme"].any (fun kw => strContains dl kw) then
      "storage"
    else if ["network", "ethernet", "nic", "adapter", "broadcom"].any (fun kw => strContains dl kw) then
      "network"
    else "other"

def sepDash : List Char := [' ', '-', ' ']

/-- Prefix of a character list up to the first occurrence of a separator,
together with the remainder after that occurrence when there is one.  This
realizes the first two fields of a Python split. -/
def upToSep (sep : List Char) : List Char → List Char × Option (List Char)
  | [] => ([], none)
  | c :: t =>
    if isPrefixB sep (c :: t) then ([], some (List.drop sep.length (c :: t)))
    else
      let p := upToSep sep t
      (c :: p.1, p.2)

/-- CorrectedLenovoParser._extract_clean_model_name.  When the separator
occurs, the split always has at least two parts, so the first branch of the
source returns the first two parts rejoined; otherwise the first forty
characters, stripped.  The second separator test of the source is dead code. -/
def extract_clean_model_name (description : String) : String :=
  if description = "" then "Unknown Model"
  else
    let desc := (trimStr description).data
    match upToSep sepDash desc with
    | (p0, some rest) =>
      let p1 := (upToSep sepDash rest).1
      trimStr ⟨p0 ++ sepDash ++ p1⟩
    | (_, none) => trimStr ⟨desc.take 40⟩

/-- CorrectedLenovoParser._extract_form_factor. -/
def extract_form_factor (description : String) : String :=
  let dl := lowerStr description
  if strContains dl "rack server" || strContains dl "rack" then "Rack"
  else if strContains dl "blade" then "Blade"
  else if strContains dl "tower" then "Tower"
  else "Rack"

/-- One component entry of full_configurations.  The id string of the source
is determined by the model id and the position and is omitted; the raw price
fields are the literal sentinels the source hardcodes for component rows. -/
structure Config where
  item_type : String
  description : String
  part_number : String
  quantity : String
  raw_usd : String
  raw_eur : String
deriving DecidableEq

/-- One parsed server model of CorrectedLenovoParser.  The components_summary
dict is modelled by its five lists. -/
structure ServerModel where
  id : Nat
  lot_description : String
  model_name : String
  model_number : String
  category : String
  form_factor : String
  vendor : String
  processor_info : String
  ram_info : String
  network_info : String
  price_5yr_psp : Option ℚ
  usd_price : Option ℚ
  eur_price : Option ℚ
  quotation_date : String
  full_configurations : List Config
  comp_processor : List String
  comp_memory : List String
  comp_storage : List String
  comp_network : List String
  comp_other : List String
deriving DecidableEq

/-- The model freshly created from a lot-header row (n is one more than the
number of models already finalized, as in the id of the source). -/
def mkServer (n : Nat) (part desc : String) (usd eur : Option ℚ) (now : String) : ServerModel :=
  { id := n
    lot_description := desc
    model_name := extract_clean_model_name desc
    model_number := part
    category := "Server"
    form_factor := extract_form_factor desc
    vendor := "Lenovo"
    processor_info := ""
    ram_info := ""
    network_info := ""
    price_5yr_psp := truthyQ usd
    usd_price := truthyQ usd
    eur_price := truthyQ eur
    quotation_date := now
    full_configurations := []
    comp_processor := []
    comp_memory := []
    comp_storage := []
    comp_network := []
    comp_other := [] }

/-- The component entry built for a non-header row. -/
def mk_config (part desc qty : String) : Config :=
  { item_type := classify_component_type desc
    description := desc
    part_number := part
    quantity := if qty ≠ "" then qty else "1"
    raw_usd := "N/A"
    raw_eur := "N/A" }

/-- Appending one component row to the accumulating model: the entry joins
full_configurations and its summary list, and the three derived info fields
are set on first match only. -/
def addComponent (cur : ServerModel) (part desc qty : String) : ServerModel :=
  let t := classify_component_type desc
  { cur with
    full_configurations := cur.full_configurations ++ [mk_config part desc qty]
    comp_processor := if t = "processor" then cur.comp_processor ++ [desc] else cur.comp_processor
    comp_memory := if t = "memory" then cur.comp_memory ++ [desc] else cur.comp_memory
    comp_storage := if t = "storage" then cur.comp_storage ++ [desc] else cur.comp_storage
    comp_network := if t = "network" then cur.comp_network ++ [desc] else cur.comp_network
    comp_other := if t = "other" then cur.comp_other ++ [desc] else cur.comp_other
    processor_info := if t = "processor" ∧ cur.processor_info = "" then desc else cur.processor_info
    ram_info := if t = "memory" ∧ cur.ram_info = "" then desc else cur.ram_info
    network_info := if t = "network" ∧ cur.network_info = "" then desc else cur.network_info }

/-- The loop state: finalized models and the optional accumulating model. -/
abbrev GroupState := List ServerModel × Option ServerModel

/-- One iteration of the row loop of parse_lenovo_correctly: skip blank rows,
finalize and reseed on a main server entry, append to the accumulating model
otherwise.  now is the timestamp the source reads from the wall clock. -/
def parse_step (now : String) (st : GroupState) (r : SrcRow) : GroupState :=
  let part := trimStr r.part
  let desc := trimStr r.desc
  if part = "" ∧ desc = "" then st
  else if is_main_server_entry part desc r.usd then
    let models := match st.2 with
      | some cur => st.1 ++ [cur]
      | none => st.1
    (models, some (mkServer (models.length + 1) part desc r.usd r.eur now))
  else
    match st.2 with
    | some cur => if part ≠ "" ∨ desc ≠ "" then (st.1, some (addComponent cur part desc r.qty)) else st
    | none => st

/-- Final flush: the accumulating model, if any, is appended to the output. -/
def parse_finish (st : GroupState) : List ServerModel :=
  match st.2 with
  | some cur => st.1 ++ [cur]
  | none => st.1

/-- CorrectedLenovoParser.parse_lenovo_correctly on the decoded data rows. -/
def parse_lenovo_correctly (rows : List SrcRow) (now : String) : List ServerModel :=
  parse_finish (rows.foldl (parse_step now) ([], none))

/-- The classification a row receives in the loop, with the price a lot
header carries. -/
inductive RowClass where
  | blank
  | lotHeader (price : ℚ)
  | componentLine
deriving DecidableEq

def row_class (r : SrcRow) : RowClass :=
  let part := trimStr r.part
  let desc := trimStr r.desc
  if part = "" ∧ desc = "" then RowClass.blank
  else if is_main_server_entry part desc r.usd then RowClass.lotHeader (r.usd.getD 0)
  else RowClass.componentLine

def rowIsMain (r : SrcRow) : Bool :=
  is_main_server_entry (trimStr r.part) (trimStr r.desc) r.usd

def header_indicators : List String :=
  ["part number", "description", "quantity", "price", "total price", "usd", "eur"]

/-- The header-likelihood score of one raw row: the number of indicators that
occur in some non-empty stripped cell, lowered. -/
def rowScore (cells : List String) : Nat :=
  let text_values := (cells.map trimStr).filter (fun v => v ≠ "")
  (header_indicators.filter
    (fun ind => text_values.any (fun v => strContains (lowerStr v) ind))).length

/-- The scan of _find_header_row over at most fuel rows: the first row whose
score reaches three, as an index relative to the start. -/
def findHeaderFrom : Nat → List (List String) → Option Nat
  | _, [] => none
  | 0, _ => none
  | fuel + 1, r :: rs =>
    if 3 ≤ rowScore r then some 0
    else (findHeaderFrom fuel rs).map (· + 1)

/-- EnhancedLenovoParser._find_header_row: the loop over range(min(10, rows)),
returning the first index whose score reaches three. -/
def find_header_row (rows : List (List String)) : Option Nat :=
  findHeaderFrom 10 rows

/-- Modelled from the claim and spec wording for comparison: the scanned row
with the highest score, ties broken by the lower index, none when no scanned
row reaches three. -/
def best_header_row (rows : List (List String)) : Option Nat :=
  let scores := (rows.take 10).map rowScore
  let m := scores.foldl max 0
  if 3 ≤ m then scores.findIdx? (fun s => s = m) else none

/-- Modelled from the claim wording of C10 for comparison with the code: the
first decimal digit run found anywhere in the string (commas allowed inside
and stripped, an optional decimal part), as a rational. -/
def firstDigitRunFrom : List Char → Option (List Char)
  | [] => none
  | c :: t => if isDigitChar c then some (numTok (c :: t)) else firstDigitRunFrom t

def first_digit_run_price (s : String) : Option ℚ :=
  (firstDigitRunFrom (trimStr s).data).bind (fun tok => parseFloatQ (stripCommas tok))

def stateSize (st : GroupState) : Nat :=
  st.1.length + (match st.2 with | some _ => 1 | none => 0)

def lotRow0 : SrcRow :=
  ⟨"7D73CTO1WW", "SMI1 - Intel - 1 Proc - Small Rack Server", "", some 2850, none⟩

def compPriceRow : SrcRow := ⟨"00MV214", "SAS cable kit", "", some 500, none⟩

def headerRows0 : List (List String) :=
  [["part number", "description", "quantity"],
   ["part number", "description", "quantity", "total price", "usd", "eur"]]

/-- Erase the only field the wall clock reaches. -/
def stripTime (m : ServerModel) : ServerModel := { m with quotation_date := "" }

def stripState (st : GroupState) : GroupState :=
  (st.1.map stripTime, st.2.map stripTime)

/-- The component rows the loop appends: rows that are neither blank nor lot
headers, restricted to those seen while a model is accumulating (the flag
records whether a lot header has already been seen). -/
def component_rows : Bool → List SrcRow → List SrcRow
  | _, [] => []
  | acc, r :: rs =>
    if trimStr r.part = "" ∧ trimStr r.desc = "" then component_rows acc rs
    else if is_main_server_entry (trimStr r.part) (trimStr r.desc) r.usd then
      component_rows true rs
    else if acc then r :: component_rows true rs
    else component_rows false rs

def leadCompRow : SrcRow := ⟨"", "16GB TruDDR5", "", none, none⟩

lemma attemptPrice_pos (g : Option (List Char)) (v : ℚ) (h : attemptPrice g = some v) : 0 < v := by
  cases g with
  | none => simp [attemptPrice] at h
  | some tok =>
    simp only [attemptPrice] at h
    cases hp : parseFloatQ (stripCommas tok) with
    | none => rw [hp] at h; simp at h
    | some w =>
      simp only [hp] at h
      by_cases hw : 0 < w
      · rw [if_pos hw] at h
        cases h
        exact hw
      · rw [if_neg hw] at h
        cases h

lemma firstPositivePrice_pos :
    ∀ (gs : List (Option (List Char))) (v : ℚ), firstPositivePrice gs = some v → 0 < v := by
  intro gs
  induction gs with
  | nil => intro v h; simp [firstPositivePrice] at h
  | cons g rest ih =>
    intro v h
    simp only [firstPositivePrice] at h
    cases ha : attemptPrice g with
    | none => rw [ha] at h; exact ih v h
    | some w =>
      rw [ha] at h
      cases h
      exact attemptPrice_pos g v ha

lemma extract_price_pos (s : String) (v : ℚ) (h : extract_price s = some v) : 0 < v := by
  simp only [extract_price] at h
  by_cases hs : price_sentinels.contains (lowerStr (trimStr s)) = true
  · rw [if_pos hs] at h; cases h
  · rw [if_neg hs] at h
    exact firstPositivePrice_pos _ v h

/-- C5: PriceExtractor maps the sentinel strings to Absent, never returns a
non-positive amount, and parses the dollar-comma format and the USD-suffix
format of the same literal to the same amount 1234.56. -/
theorem extract_price_contract :
    extract_price "$1,234.56" = some ((123456 : ℚ) / 100)
    ∧ extract_price "1234.56 USD" = some ((123456 : ℚ) / 100)
    ∧ extract_price "N/A" = none
    ∧ extract_price "TBD" = none
    ∧ extract_price "contact" = none
    ∧ extract_price "" = none
    ∧ (∀ s v, extract_price s = some v → 0 < v) := by
  have hq : ((123456 : ℚ) / 100) = mkRat 123456 100 := by
    norm_num [Rat.mkRat_eq_div]
  refine ⟨?_, ?_, by decide, by decide, by decide, by decide, extract_price_pos⟩
  · rw [hq]; decide
  · rw [hq]; decide

theorem extract_price_contract_witness : (0 : ℚ) < (123456 : ℚ) / 100 :=
  extract_price_contract.2.2.2.2.2.2 "$1,234.56" ((123456 : ℚ) / 100)
    extract_price_contract.1

/-- C10 counterexample: a comma right before the first digit makes
extract_price Absent although the string has the digit run 5, and the digit
run 0 is not returned as a price, so extract_price does not return the first
decimal digit run of every non-sentinel input. -/
theorem extract_price_not_first_digit_run :
    first_digit_run_price "x, 5" = some 5
    ∧ extract_price "x, 5" = none
    ∧ first_digit_run_price "0" = some 0
    ∧ extract_price "0" = none := by decide

/-- C10 amended: extract_price anchors on the leftmost digit-or-comma token;
whenever that token parses, commas stripped, to a positive value, that value
is returned whatever text surrounds it, so a leading minus sign is ignored
and a bare model number yields a price. -/
theorem extract_price_leftmost_token :
    (∀ (s : String) (v : ℚ) (g : List Char),
      price_sentinels.contains (lowerStr (trimStr s)) = false →
      pat1Group (lowerStr (trimStr s)).data = some g →
      parseFloatQ (stripCommas g) = some v → 0 < v →
      extract_price s = some v)
    ∧ extract_price "ThinkSystem SR650 7X06" = some 650
    ∧ extract_price "-5" = some 5 := by
  refine ⟨?_, by decide, by decide⟩
  intro s v g hs hg hv h0
  simp only [extract_price, hs, Bool.false_eq_true, if_false, tryPricePatterns,
    firstPositivePrice, hg, attemptPrice, hv]
  rw [if_pos h0]

theorem extract_price_leftmost_token_witness : extract_price "abc 42" = some 42 :=
  extract_price_leftmost_token.1 "abc 42" 42 ['4', '2']
    (by decide) (by decide) (by decide) (by decide)

lemma is_main_elim {part desc : String} {usd : Option ℚ}
    (h : is_main_server_entry part desc usd = true) :
    desc ≠ "" ∧ has_price usd = true ∧ has_server_signal desc = true := by
  by_cases hd : desc = ""
  · unfold is_main_server_entry at h
    rw [if_pos hd] at h
    cases h
  · unfold is_main_server_entry at h
    rw [if_neg hd, Bool.and_eq_true] at h
    exact ⟨hd, h.1, h.2⟩

lemma has_price_elim {usd : Option ℚ} (h : has_price usd = true) :
    ∃ v, usd = some v ∧ 0 < v := by
  cases usd with
  | none => simp [has_price] at h
  | some v => exact ⟨v, rfl, by simpa [has_price] using h⟩

lemma is_main_intro {part desc : String} {usd : Option ℚ} {v : ℚ}
    (hd : desc ≠ "") (hu : usd = some v) (hv : 0 < v)
    (hs : has_server_signal desc = true) :
    is_main_server_entry part desc usd = true := by
  unfold is_main_server_entry
  rw [if_neg hd, Bool.and_eq_true]
  exact ⟨by simp [has_price, hu, hv], hs⟩

lemma has_server_signal_ne_empty {desc : String} (h : has_server_signal desc = true) :
    desc ≠ "" := by
  intro hd
  rw [hd] at h
  exact absurd h (by decide)

lemma rowIsMain_of_blank {r : SrcRow} (hb : trimStr r.part = "" ∧ trimStr r.desc = "") :
    rowIsMain r = false := by
  unfold rowIsMain is_main_server_entry
  rw [if_pos hb.2]

lemma stateSize_step (now : String) (st : GroupState) (r : SrcRow) :
    stateSize (parse_step now st r) = stateSize st + (if rowIsMain r = true then 1 else 0) := by
  obtain ⟨ms, cur⟩ := st
  by_cases hb : trimStr r.part = "" ∧ trimStr r.desc = ""
  · rw [rowIsMain_of_blank hb]
    simp [parse_step, hb]
  · by_cases hm : is_main_server_entry (trimStr r.part) (trimStr r.desc) r.usd = true
    · have hm' : rowIsMain r = true := hm
      rw [hm']
      cases cur with
      | some c => simp [parse_step, hb, hm, stateSize]
      | none => simp [parse_step, hb, hm, stateSize]
    · have hm' : rowIsMain r = false := by
        unfold rowIsMain
        exact Bool.eq_false_iff.mpr hm
      rw [hm']
      cases cur with
      | some c =>
        have hor : trimStr r.part ≠ "" ∨ trimStr r.desc ≠ "" := by
          rcases not_and_or.mp hb with h | h
          · exact Or.inl h
          · exact Or.inr h
        simp [parse_step, hb, hm, hor, stateSize]
      | none => simp [parse_step, hb, hm, stateSize]

lemma stateSize_fold :
    ∀ (rows : List SrcRow) (now : String) (st : GroupState),
      stateSize (rows.foldl (parse_step now) st) = stateSize st + rows.countP rowIsMain := by
  intro rows
  induction rows with
  | nil => intro now st; simp [List.countP_nil]
  | cons r rs ih =>
    intro now st
    rw [List.foldl_cons, ih, stateSize_step, List.countP_cons]
    by_cases h : rowIsMain r = true
    · simp [h]; omega
    · have h' : rowIsMain r = false := Bool.eq_false_iff.mpr h
      simp [h']

lemma parse_finish_length (st : GroupState) : (parse_finish st).length = stateSize st := by
  obtain ⟨ms, cur⟩ := st
  cases cur with
  | some c => simp [parse_finish, stateSize]
  | none => simp [parse_finish, stateSize]

/-- C1: while accumulating, a lot-header row finalizes the current model into
the output and reseeds the accumulator from that row, and since blank rows
are skipped and end of input flushes the accumulator, the parse emits exactly
one HardwareModel per lot-header row, so back-to-back lot headers are never
merged. -/
theorem grouper_lot_header_transitions :
    (∀ (now : String) (ms : List ServerModel) (cur : ServerModel) (r : SrcRow),
      rowIsMain r = true →
      parse_step now (ms, some cur) r =
        (ms ++ [cur],
         some (mkServer (ms.length + 2) (trimStr r.part) (trimStr r.desc) r.usd r.eur now)))
    ∧ (∀ (now : String) (rows : List SrcRow),
        (parse_lenovo_correctly rows now).length = rows.countP rowIsMain) := by
  constructor
  · intro now ms cur r h
    have hm : is_main_server_entry (trimStr r.part) (trimStr r.desc) r.usd = true := h
    have hd : trimStr r.desc ≠ "" := (is_main_elim hm).1
    have hb : ¬(trimStr r.part = "" ∧ trimStr r.desc = "") := fun hb => hd hb.2
    simp [parse_step, hb, hm]
  · intro now rows
    unfold parse_lenovo_correctly
    rw [parse_finish_length, stateSize_fold]
    simp [stateSize]

theorem grouper_lot_header_transitions_witness :
    parse_step "t" ([], some (mkServer 1 "A" "SMB" (some 1) none "t")) lotRow0 =
      ([mkServer 1 "A" "SMB" (some 1) none "t"],
       some (mkServer 2 (trimStr lotRow0.part) (trimStr lotRow0.desc) lotRow0.usd lotRow0.eur "t"))
    ∧ (parse_lenovo_correctly [lotRow0, lotRow0] "t").length = 2 :=
  ⟨grouper_lot_header_transitions.1 "t" [] (mkServer 1 "A" "SMB" (some 1) none "t") lotRow0
      (by decide),
   (grouper_lot_header_transitions.2 "t" [lotRow0, lotRow0]).trans (by decide)⟩

/-- Any property preserved by component appends and established by every
lot-row seeding holds for every model the parse outputs. -/
lemma parse_models_pred (P : ServerModel → Prop)
    (hadd : ∀ m part desc qty, P m → P (addComponent m part desc qty)) :
    ∀ (rows : List SrcRow) (now : String) (ms : List ServerModel) (cur : Option ServerModel),
      (∀ m ∈ ms, P m) → (∀ c, cur = some c → P c) →
      (∀ r ∈ rows, rowIsMain r = true → ∀ n,
        P (mkServer n (trimStr r.part) (trimStr r.desc) r.usd r.eur now)) →
      ∀ m ∈ parse_finish (rows.foldl (parse_step now) (ms, cur)), P m := by
  intro rows
  induction rows with
  | nil =>
    intro now ms cur hms hcur _ m hm
    cases cur with
    | some c =>
      simp only [List.foldl_nil, parse_finish] at hm
      rcases List.mem_append.mp hm with h | h
      · exact hms m h
      · rw [List.mem_singleton.mp h]
        exact hcur c rfl
    | none =>
      simp only [List.foldl_nil, parse_finish] at hm
      exact hms m hm
  | cons r rs ih =>
    intro now ms cur hms hcur hmk m hm
    rw [List.foldl_cons] at hm
    have hmk' : ∀ r ∈ rs, rowIsMain r = true → ∀ n,
        P (mkServer n (trimStr r.part) (trimStr r.desc) r.usd r.eur now) :=
      fun r hr => hmk r (List.mem_cons_of_mem _ hr)
    by_cases hb : trimStr r.part = "" ∧ trimStr r.desc = ""
    · have hstep : parse_step now (ms, cur) r = (ms, cur) := by
        simp [parse_step, hb]
      rw [hstep] at hm
      exact ih now ms cur hms hcur hmk' m hm
    · by_cases hmain : is_main_server_entry (trimStr r.part) (trimStr r.desc) r.usd = true
      · have hP : ∀ n, P (mkServer n (trimStr r.part) (trimStr r.desc) r.usd r.eur now) :=
          hmk r (List.mem_cons_self r rs) hmain
        cases cur with
        | some c =>
          have hstep : parse_step now (ms, some c) r =
              (ms ++ [c],
               some (mkServer ((ms ++ [c]).length + 1) (trimStr r.part) (trimStr r.desc)
                 r.usd r.eur now)) := by
            simp [parse_step, hb, hmain]
          rw [hstep] at hm
          refine ih now _ _ ?_ ?_ hmk' m hm
          · intro m' hm'
            rcases List.mem_append.mp hm' with h | h
            · exact hms m' h
            · rw [List.mem_singleton.mp h]
              exact hcur c rfl
          · intro c' hc'
            cases hc'
            exact hP _
        | none =>
          have hstep : parse_step now (ms, none) r =
              (ms,
               some (mkServer (ms.length + 1) (trimStr r.part) (trimStr r.desc)
                 r.usd r.eur now)) := by
            simp [parse_step, hb, hmain]
          rw [hstep] at hm
          refine ih now _ _ hms ?_ hmk' m hm
          intro c' hc'
          cases hc'
          exact hP _
      · cases cur with
        | some c =>
          have hor : trimStr r.part ≠ "" ∨ trimStr r.desc ≠ "" := not_and_or.mp hb
          have hstep : parse_step now (ms, some c) r =
              (ms, some (addComponent c (trimStr r.part) (trimStr r.desc) r.qty)) := by
            simp [parse_step, hb, hmain, hor]
          rw [hstep] at hm
          refine ih now _ _ hms ?_ hmk' m hm
          intro c' hc'
          cases hc'
          exact hadd c _ _ _ (hcur c rfl)
        | none =>
          have hstep : parse_step now (ms, none) r = (ms, none) := by
            simp [parse_step, hb, hmain]
          rw [hstep] at hm
          exact ih now ms none hms hcur hmk' m hm

/-- C2: every HardwareModel in the output is seeded from some lot-header row
of the input: its lot description, model number and price are those of that
row, the price being the positive value parsed from the USD price column of
that row; appending component rows never touches the price. -/
theorem model_price_from_lot_header :
    ∀ (now : String) (rows : List SrcRow) (m : ServerModel),
      m ∈ parse_lenovo_correctly rows now →
      ∃ r ∈ rows, rowIsMain r = true
        ∧ m.lot_description = trimStr r.desc
        ∧ m.model_number = trimStr r.part
        ∧ m.price_5yr_psp = r.usd
        ∧ ∃ v, r.usd = some v ∧ 0 < v := by
  intro now rows m hm
  refine parse_models_pred
    (fun m => ∃ r ∈ rows, rowIsMain r = true
      ∧ m.lot_description = trimStr r.desc
      ∧ m.model_number = trimStr r.part
      ∧ m.price_5yr_psp = r.usd
      ∧ ∃ v, r.usd = some v ∧ 0 < v)
    ?_ rows now [] none (by simp) (by simp) ?_ m hm
  · rintro m' part desc qty ⟨r, hr, hmain, h1, h2, h3, hv⟩
    refine ⟨r, hr, hmain, ?_, ?_, ?_, hv⟩
    · simpa [addComponent] using h1
    · simpa [addComponent] using h2
    · simpa [addComponent] using h3
  · intro r hr hmain n
    obtain ⟨_, hp, _⟩ := is_main_elim (show is_main_server_entry (trimStr r.part)
      (trimStr r.desc) r.usd = true from hmain)
    obtain ⟨v, hu, hv⟩ := has_price_elim hp
    refine ⟨r, hr, hmain, rfl, rfl, ?_, v, hu, hv⟩
    rw [hu]
    simp only [mkServer, truthyQ]
    rw [if_neg (ne_of_gt hv)]

theorem model_price_from_lot_header_witness :
    ∃ m ∈ parse_lenovo_correctly [lotRow0] "t", ∃ r ∈ [lotRow0],
      rowIsMain r = true
        ∧ m.lot_description = trimStr r.desc
        ∧ m.model_number = trimStr r.part
        ∧ m.price_5yr_psp = r.usd
        ∧ ∃ v, r.usd = some v ∧ 0 < v :=
  ⟨mkServer 1 "7D73CTO1WW" "SMI1 - Intel - 1 Proc - Small Rack Server" (some 2850) none "t",
   by decide,
   model_price_from_lot_header "t" [lotRow0] _ (by decide)⟩

/-- C3: a row is classified as a lot header carrying price p exactly when the
USD price cell parses to the positive value p and the description carries a
lot or server signal; a non-blank row with an extractable price but no server
signal is classified as a component line (whose class carries no price). -/
theorem row_classification_contract :
    ∀ r : SrcRow,
      (∀ p : ℚ, row_class r = RowClass.lotHeader p ↔
        (r.usd = some p ∧ 0 < p ∧ has_server_signal (trimStr r.desc) = true))
      ∧ (has_price r.usd = true → has_server_signal (trimStr r.desc) = false →
          ¬(trimStr r.part = "" ∧ trimStr r.desc = "") →
          row_class r = RowClass.componentLine) := by
  intro r
  constructor
  · intro p
    constructor
    · intro h
      by_cases hb : trimStr r.part = "" ∧ trimStr r.desc = ""
      · rw [row_class, if_pos hb] at h
        cases h
      · by_cases hmain : is_main_server_entry (trimStr r.part) (trimStr r.desc) r.usd = true
        · obtain ⟨_, hp, hsig⟩ := is_main_elim hmain
          obtain ⟨v, hu, hv⟩ := has_price_elim hp
          rw [row_class, if_neg hb, if_pos hmain] at h
          have hpv : p = v := by
            have := RowClass.lotHeader.inj h.symm
            rw [hu] at this
            simpa using this
          exact ⟨by rw [hu, hpv], by rw [hpv]; exact hv, hsig⟩
        · rw [row_class, if_neg hb, if_neg hmain] at h
          cases h
    · rintro ⟨hu, hp, hsig⟩
      have hd : trimStr r.desc ≠ "" := has_server_signal_ne_empty hsig
      have hmain : is_main_server_entry (trimStr r.part) (trimStr r.desc) r.usd = true :=
        is_main_intro hd hu hp hsig
      rw [row_class, if_neg (fun hb => hd hb.2), if_pos hmain, hu]
      rfl
  · intro hp hsig hb
    have hmain : is_main_server_entry (trimStr r.part) (trimStr r.desc) r.usd = false := by
      unfold is_main_server_entry
      by_cases hd : trimStr r.desc = ""
      · rw [if_pos hd]
      · rw [if_neg hd, hsig, Bool.and_false]
    rw [row_class, if_neg hb, if_neg (by rw [hmain]; exact Bool.false_ne_true)]

theorem row_classification_contract_witness :
    row_class lotRow0 = RowClass.lotHeader 2850
    ∧ row_class compPriceRow = RowClass.componentLine :=
  ⟨((row_classification_contract lotRow0).1 2850).mpr (by decide),
   (row_classification_contract compPriceRow).2 (by decide) (by decide) (by decide)⟩

lemma findHeaderFrom_some :
    ∀ (rows : List (List String)) (fuel i : Nat), findHeaderFrom fuel rows = some i →
      i < fuel
      ∧ (∃ r, rows.get? i = some r ∧ 3 ≤ rowScore r)
      ∧ ∀ j r', j < i → rows.get? j = some r' → rowScore r' < 3 := by
  intro rows
  induction rows with
  | nil =>
    intro fuel i h
    cases fuel <;> simp [findHeaderFrom] at h
  | cons r rs ih =>
    intro fuel i h
    cases fuel with
    | zero => simp [findHeaderFrom] at h
    | succ fuel =>
      by_cases h3 : 3 ≤ rowScore r
      · rw [findHeaderFrom, if_pos h3] at h
        cases h
        refine ⟨Nat.succ_pos fuel, ⟨r, rfl, h3⟩, ?_⟩
        intro j r' hj _
        exact absurd hj (Nat.not_lt_zero j)
      · rw [findHeaderFrom, if_neg h3] at h
        rw [Option.map_eq_some'] at h
        obtain ⟨i', hfind, hi⟩ := h
        subst hi
        obtain ⟨hlt, ⟨rr, hget, hsc⟩, hprev⟩ := ih fuel i' hfind
        refine ⟨by omega, ⟨rr, by simpa using hget, hsc⟩, ?_⟩
        intro j r' hj hget'
        cases j with
        | zero =>
          have hr' : r = r' := by simpa using hget'
          rw [← hr']
          omega
        | succ j =>
          exact hprev j r' (by omega) (by simpa using hget')

lemma findHeaderFrom_none :
    ∀ (rows : List (List String)) (fuel : Nat), findHeaderFrom fuel rows = none →
      ∀ j r', j < fuel → rows.get? j = some r' → rowScore r' < 3 := by
  intro rows
  induction rows with
  | nil =>
    intro fuel _ j r' _ hget
    simp at hget
  | cons r rs ih =>
    intro fuel h j r' hj hget
    cases fuel with
    | zero => exact absurd hj (Nat.not_lt_zero j)
    | succ fuel =>
      by_cases h3 : 3 ≤ rowScore r
      · rw [findHeaderFrom, if_pos h3] at h
        cases h
      · rw [findHeaderFrom, if_neg h3] at h
        rw [Option.map_eq_none'] at h
        cases j with
        | zero =>
          have hr' : r = r' := by simpa using hget
          rw [← hr']
          omega
        | succ j =>
          exact ih fuel h j r' (by omega) (by simpa using hget)

/-- C4 amended: the header locator returns the lowest-indexed scanned row
whose keyword score reaches the threshold of three, not the row with the
highest score, and returns none exactly when no scanned row (at most the
first ten) reaches the threshold. -/
theorem find_header_row_first_threshold :
    ∀ rows : List (List String),
      (∀ i, find_header_row rows = some i →
        i < 10
        ∧ (∃ r, rows.get? i = some r ∧ 3 ≤ rowScore r)
        ∧ ∀ j r', j < i → rows.get? j = some r' → rowScore r' < 3)
      ∧ (find_header_row rows = none ↔
          ∀ j r', j < 10 → rows.get? j = some r' → rowScore r' < 3) := by
  intro rows
  refine ⟨fun i h => findHeaderFrom_some rows 10 i h, ?_, ?_⟩
  · intro h
    exact findHeaderFrom_none rows 10 h
  · intro hall
    cases hfind : find_header_row rows with
    | none => rfl
    | some i =>
      obtain ⟨hlt, ⟨r, hget, hsc⟩, _⟩ := findHeaderFrom_some rows 10 i hfind
      have := hall i r hlt hget
      omega

/-- C4 counterexample: the first scanned row scores exactly the threshold 3
while the second scores 7, so the highest-scoring row is row 1, yet the
locator returns row 0: it is not an argmax with ties broken low, but the
first row to reach the threshold. -/
theorem header_locator_not_argmax :
    find_header_row headerRows0 = some 0
    ∧ best_header_row headerRows0 = some 1
    ∧ rowScore (headerRows0.get? 0).iget = 3
    ∧ rowScore (headerRows0.get? 1).iget = 7
    ∧ find_header_row headerRows0 ≠ best_header_row headerRows0 := by decide

theorem find_header_row_first_threshold_witness :
    find_header_row [["hello"]] = none := by
  refine (find_header_row_first_threshold [["hello"]]).2.mpr ?_
  intro j r' _ hget
  cases j with
  | zero =>
    have hr' : ["hello"] = r' := by simpa using hget
    rw [← hr']
    decide
  | succ j => simp at hget

lemma stripTime_mkServer (n : Nat) (part desc : String) (usd eur : Option ℚ) (t : String) :
    stripTime (mkServer n part desc usd eur t) = mkServer n part desc usd eur "" := rfl

lemma stripTime_addComponent (m : ServerModel) (part desc qty : String) :
    stripTime (addComponent m part desc qty) = addComponent (stripTime m) part desc qty := rfl

lemma parse_step_strip (t1 t2 : String) (r : SrcRow) :
    ∀ st1 st2 : GroupState, stripState st1 = stripState st2 →
      stripState (parse_step t1 st1 r) = stripState (parse_step t2 st2 r) := by
  rintro ⟨ms1, c1⟩ ⟨ms2, c2⟩ h
  have hms : ms1.map stripTime = ms2.map stripTime := congrArg Prod.fst h
  have hc : c1.map stripTime = c2.map stripTime := congrArg Prod.snd h
  have hlen : ms1.length = ms2.length := by
    have := congrArg List.length hms
    simpa using this
  by_cases hb : trimStr r.part = "" ∧ trimStr r.desc = ""
  · simp only [parse_step, if_pos hb]
    exact h
  · by_cases hmain : is_main_server_entry (trimStr r.part) (trimStr r.desc) r.usd = true
    · cases c1 with
      | some x1 =>
        cases c2 with
        | some x2 =>
          have hx : stripTime x1 = stripTime x2 := by
            simpa using hc
          simp [parse_step, hb, hmain, stripState, stripTime_mkServer, hms, hlen, hx]
        | none => simp at hc
      | none =>
        cases c2 with
        | some x2 => simp at hc
        | none =>
          simp [parse_step, hb, hmain, stripState, stripTime_mkServer, hms, hlen]
    · have hor : trimStr r.part ≠ "" ∨ trimStr r.desc ≠ "" := not_and_or.mp hb
      cases c1 with
      | some x1 =>
        cases c2 with
        | some x2 =>
          have hx : stripTime x1 = stripTime x2 := by
            simpa using hc
          simp [parse_step, hb, hmain, hor, stripState, stripTime_addComponent, hms, hx]
        | none => simp at hc
      | none =>
        cases c2 with
        | some x2 => simp at hc
        | none =>
          simp only [parse_step, if_neg hb, if_neg hmain]
          exact h

lemma foldl_strip (rs : List SrcRow) :
    ∀ (t1 t2 : String) (st1 st2 : GroupState), stripState st1 = stripState st2 →
      stripState (rs.foldl (parse_step t1) st1) = stripState (rs.foldl (parse_step t2) st2) := by
  induction rs with
  | nil => intro t1 t2 st1 st2 h; simpa using h
  | cons r rs ih =>
    intro t1 t2 st1 st2 h
    rw [List.foldl_cons, List.foldl_cons]
    exact ih t1 t2 _ _ (parse_step_strip t1 t2 r st1 st2 h)

lemma parse_finish_strip (st1 st2 : GroupState) (h : stripState st1 = stripState st2) :
    (parse_finish st1).map stripTime = (parse_finish st2).map stripTime := by
  obtain ⟨ms1, c1⟩ := st1
  obtain ⟨ms2, c2⟩ := st2
  have hms : ms1.map stripTime = ms2.map stripTime := congrArg Prod.fst h
  have hc : c1.map stripTime = c2.map stripTime := congrArg Prod.snd h
  cases c1 with
  | some x1 =>
    cases c2 with
    | some x2 =>
      have hx : stripTime x1 = stripTime x2 := by simpa using hc
      simp only [parse_finish, List.map_append, hms, List.map_cons, List.map_nil, hx]
    | none => simp at hc
  | none =>
    cases c2 with
    | some x2 => simp at hc
    | none => simpa [parse_finish] using hms

/-- C6 amended: the parse is a function of the rows and the clock reading
alone, and the clock reaches only the quotation_date field: outputs of two
runs agree on every other field. -/
theorem parse_deterministic_modulo_timestamp :
    ∀ (rows : List SrcRow) (t1 t2 : String),
      (parse_lenovo_correctly rows t1).map stripTime =
        (parse_lenovo_correctly rows t2).map stripTime := by
  intro rows t1 t2
  exact parse_finish_strip _ _ (foldl_strip rows t1 t2 ([], none) ([], none) rfl)

/-- C6 counterexample: the same single-lot sheet parsed under two different
clock readings yields different baskets, because the source stamps
datetime.now into the quotation_date field of every model. -/
theorem parse_depends_on_clock :
    parse_lenovo_correctly [lotRow0] "2025-09-01T00:00:00" ≠
      parse_lenovo_correctly [lotRow0] "2025-09-02T00:00:00" := by decide

lemma addComponent_configs (m : ServerModel) (part desc qty : String) :
    (addComponent m part desc qty).full_configurations =
      m.full_configurations ++ [mk_config part desc qty] := rfl

lemma fold_configs :
    ∀ (rows : List SrcRow) (now : String) (ms : List ServerModel) (cur : Option ServerModel),
      ((parse_finish (rows.foldl (parse_step now) (ms, cur))).map
          (fun m => m.full_configurations)).flatten
        = (ms.map (fun m => m.full_configurations)).flatten
          ++ (match cur with | some c => c.full_configurations | none => [])
          ++ (component_rows cur.isSome rows).map
              (fun r => mk_config (trimStr r.part) (trimStr r.desc) r.qty) := by
  intro rows
  induction rows with
  | nil =>
    intro now ms cur
    cases cur with
    | some c => simp [parse_finish, component_rows]
    | none => simp [parse_finish, component_rows]
  | cons r rs ih =>
    intro now ms cur
    rw [List.foldl_cons]
    by_cases hb : trimStr r.part = "" ∧ trimStr r.desc = ""
    · have hstep : parse_step now (ms, cur) r = (ms, cur) := by
        simp [parse_step, hb]
      rw [hstep, ih, component_rows, if_pos hb]
    · by_cases hmain : is_main_server_entry (trimStr r.part) (trimStr r.desc) r.usd = true
      · cases cur with
        | some c =>
          have hstep : parse_step now (ms, some c) r =
              (ms ++ [c],
               some (mkServer ((ms ++ [c]).length + 1) (trimStr r.part) (trimStr r.desc)
                 r.usd r.eur now)) := by
            simp [parse_step, hb, hmain]
          rw [hstep, ih, component_rows, if_neg hb, if_pos hmain]
          simp [mkServer, List.flatten_append, List.append_assoc]
        | none =>
          have hstep : parse_step now (ms, none) r =
              (ms,
               some (mkServer (ms.length + 1) (trimStr r.part) (trimStr r.desc)
                 r.usd r.eur now)) := by
            simp [parse_step, hb, hmain]
          rw [hstep, ih, component_rows, if_neg hb, if_pos hmain]
          simp [mkServer]
      · cases cur with
        | some c =>
          have hor : trimStr r.part ≠ "" ∨ trimStr r.desc ≠ "" := not_and_or.mp hb
          have hstep : parse_step now (ms, some c) r =
              (ms, some (addComponent c (trimStr r.part) (trimStr r.desc) r.qty)) := by
            simp [parse_step, hb, hmain, hor]
          rw [hstep, ih, component_rows, if_neg hb, if_neg hmain]
          simp [addComponent_configs, List.append_assoc]
        | none =>
          have hstep : parse_step now (ms, none) r = (ms, none) := by
            simp [parse_step, hb, hmain]
          rw [hstep, ih, component_rows, if_neg hb, if_neg hmain]
          simp

/-- C7 amended: concatenating the component lists of the output models, in
output order, gives exactly the non-blank non-header rows that follow the
first lot header, in source row order; hence each such row belongs to exactly
one model and no list is reordered, while rows classified as components
before any lot header belong to no model. -/
theorem components_partition_after_first_lot :
    ∀ (now : String) (rows : List SrcRow),
      ((parse_lenovo_correctly rows now).map (fun m => m.full_configurations)).flatten
        = (component_rows false rows).map
            (fun r => mk_config (trimStr r.part) (trimStr r.desc) r.qty) := by
  intro now rows
  have h := fold_configs rows now [] none
  simpa using h

/-- C7 counterexample: a row classified as a component line that precedes any
lot header is dropped: the parse of the one-row sheet holds no model at all,
so this component row belongs to no HardwareModel rather than to exactly
one. -/
theorem leading_component_row_dropped :
    row_class leadCompRow = RowClass.componentLine
    ∧ parse_lenovo_correctly [leadCompRow] "t" = [] := by decide

lemma classify_go_eq_find :
    ∀ (rules : List ClassRule) (dl : String) (part : Option String),
      classify_component_go rules dl part =
        (match rules.find? (fun ru => rule_matches ru dl part) with
         | some ru => (ru.ctype, ru.category)
         | none => ("component", "Hardware")) := by
  intro rules
  induction rules with
  | nil => intro dl part; rfl
  | cons ru rest ih =>
    intro dl part
    by_cases h : rule_matches ru dl part = true
    · simp [classify_component_go, List.find?, h]
    · have h' : rule_matches ru dl part = false := Bool.eq_false_iff.mpr h
      simp [classify_component_go, List.find?, h', ih]

/-- C8: for every description, with or without a part number, the classifier
returns the type and category of the first rule of the ordered table that
matches, and the generic component/Hardware fallback when no rule matches;
being a total function, it never fails. -/
theorem classify_component_first_match :
    ∀ (desc : String) (part : Option String),
      (classify_component desc part =
        match component_classification.find? (fun ru => rule_matches ru (lowerStr desc) part) with
        | some ru => (ru.ctype, ru.category)
        | none => ("component", "Hardware"))
      ∧ ((∀ ru ∈ component_classification,
            rule_matches ru (lowerStr desc) part = false) →
          classify_component desc part = ("component", "Hardware")) := by
  intro desc part
  constructor
  · exact classify_go_eq_find component_classification (lowerStr desc) part
  · intro hnone
    have hfind : component_classification.find?
        (fun ru => rule_matches ru (lowerStr desc) part) = none := by
      rw [List.find?_eq_none]
      intro ru hru
      simp [hnone ru hru]
    rw [show classify_component desc part =
        classify_component_go component_classification (lowerStr desc) part from rfl,
      classify_go_eq_find component_classification (lowerStr desc) part, hfind]

theorem classify_component_first_match_witness :
    classify_component "hello world" none = ("component", "Hardware") :=
  (classify_component_first_match "hello world" none).2 (by decide)

/-- C9 counterexample: on the line Broadcom 57414 10/25GbE SFP28 2-Port the
specification extractor of the repository returns the empty specification, so
it contains neither a link_speed attribute equal to 25GbE nor a ports
attribute equal to 2; and the network-speed extraction of the test script
yields the whole uppercased token 10/25GBE, not 25GbE.  Only the
classification part of the claim holds. -/
theorem broadcom_no_ports_spec :
    extract_specifications "Broadcom 57414 10/25GbE SFP28 2-Port" = []
    ∧ ¬ (("link_speed", SpecVal.str "25GbE")
          ∈ extract_specifications "Broadcom 57414 10/25GbE SFP28 2-Port"
        ∧ ("ports", SpecVal.nat 2)
          ∈ extract_specifications "Broadcom 57414 10/25GbE SFP28 2-Port")
    ∧ test_network_info (lowerStr "Broadcom 57414 10/25GbE SFP28 2-Port") ≠ "Speed: 25GBE" := by
  decide

/-- C9 amended: the line is classified as a network component both by the
rule-table classifier and by the test-script chain; the only network datum
any code extracts is the speed string built from the whole matched token,
Speed: 10/25GBE, and the specification extractor returns the empty
specification with no ports attribute. -/
theorem broadcom_network_classification :
    classify_component "Broadcom 57414 10/25GbE SFP28 2-Port" none = ("network", "Network")
    ∧ test_component_type (lowerStr "Broadcom 57414 10/25GbE SFP28 2-Port") = "🌐 Network"
    ∧ test_network_info (lowerStr "Broadcom 57414 10/25GbE SFP28 2-Port") = "Speed: 10/25GBE"
    ∧ extract_specifications "Broadcom 57414 10/25GbE SFP28 2-Port" = [] := by
  decide
